import Mathlib

set_option maxRecDepth 16384

/-
Verification of the pintui terminal-UI design system against its
specification.  The authoritative implementation under verification is the
Go reference module (go/format.go, go/messages.go, and the progress source —
Spinner/SpinnerHandle, Bar/BarHandle, StageProgress — concatenated into
src/go/messages_test.go); it is embedded shallowly:

* Go `uint64` / `int64` arithmetic becomes `Nat` / `Int` arithmetic; Go's
  integer `/` and `%` truncate toward zero, i.e. `Int.tdiv` / `Int.tmod`.
* Go strings are Lean `String`s (lists of characters) except where the code
  manipulates raw bytes (`TruncatePath` slices byte indices), where they are
  lists of byte values (`List Nat`).
* All float64 values are dyadic rationals and are tracked exactly as
  significand/exponent pairs of integers; every rounding step the code
  performs is modelled by exact-integer IEEE 754 round-to-nearest, ties to
  even: the `uint64`-to-float64 conversion in `HumanSize` (`f64of`), the
  decimal-literal conversion with `ErrRange` overflow in
  `strconv.ParseFloat` (`float64OfDecimal`), and the division and addition
  inside `Duration.Seconds` (`goSecondsNat`).  Multiplication and division
  by the power-of-two unit constants is exact in float64 and needs no
  rounding.
-/

namespace Pintui

/-! ### Go integer primitives -/

/-- Go's integer division truncates toward zero (like `Int.tdiv`). -/
def goDiv (a b : Int) : Int := a.tdiv b

/-- Go's integer remainder takes the sign of the dividend (like `Int.tmod`). -/
def goMod (a b : Int) : Int := a.tmod b

/-! ### Character and list helpers used by go/format.go

`strings.TrimSpace` in Go trims Unicode white space; the inputs relevant to
the specification only ever carry ASCII white space, which is what `isSpace`
recognises.  `strings.ToUpper` maps Unicode; `toUpperChar` is its action on
ASCII, which is all the size grammar uses. -/

/-- An ASCII white-space character (space, TAB, LF, VT, FF, CR). -/
def isSpace (c : Char) : Bool := c.toNat = 32 || (9 ≤ c.toNat && c.toNat ≤ 13)

/-- An ASCII decimal digit. -/
def isDigit (c : Char) : Bool := 48 ≤ c.toNat && c.toNat ≤ 57

/-- ASCII upper-casing, the action of Go's `strings.ToUpper` on ASCII. -/
def toUpperChar (c : Char) : Char :=
  if 97 ≤ c.toNat && c.toNat ≤ 122 then Char.ofNat (c.toNat - 32) else c

/-- Numeric value of a string of decimal digits (most significant first). -/
def digitsVal (l : List Char) : Nat := l.foldl (fun a c => 10 * a + (c.toNat - 48)) 0

/-- Model of Go's `strings.TrimSpace`: drop white space from both ends. -/
def trimSpace (l : List Char) : List Char :=
  (((l.dropWhile isSpace).reverse.dropWhile isSpace)).reverse

/-- Model of Go's `strings.HasSuffix`. -/
def hasSuffix (l suf : List Char) : Bool :=
  decide (l.reverse.take suf.length = suf.reverse)

/-- Model of Go's `strings.TrimSuffix`. -/
def trimSuffix (l suf : List Char) : List Char :=
  if hasSuffix l suf then (l.reverse.drop suf.length).reverse else l

/-! ### go/format.go: unit constants -/

/-- go/format.go: `KB uint64 = 1024`. -/
def KB : Nat := 1024

/-- go/format.go: `MB uint64 = KB * 1024`. -/
def MB : Nat := KB * 1024

/-- go/format.go: `GB uint64 = MB * 1024`. -/
def GB : Nat := MB * 1024

/-- go/format.go: `TB uint64 = GB * 1024`. -/
def TB : Nat := GB * 1024

/-! ### float64 modelling for `HumanSize`

`HumanSize` computes `float64(bytes) / float64(unit)` and prints it with
`%.1f` / `%.2f`.  The division is by a power of two and hence exact in
binary floating point, so the printed value is exactly
`f64of bytes / 2 ^ k`.  Go's `%.f` formatting rounds the exact binary value
to the requested number of decimals, nearest, ties to even. -/

/-- Round `a / h` (for `h > 0`) to the nearest natural number, ties to even. -/
def roundHalfEvenDiv (a h : Nat) : Nat :=
  let q := a / h
  let r := a % h
  if h < 2 * r then q + 1
  else if 2 * r < h then q
  else if q % 2 = 0 then q else q + 1

/-- Bit length of a natural number below `2 ^ 64`. -/
def bitLen (n : Nat) : Nat := ((List.range 64).filter (fun k => 2 ^ k ≤ n)).length

/-- Exact value of Go's `float64(n)` for a `uint64` `n`: round `n` to 53
significant bits, ties to even.  Exact (the identity) for `n < 2 ^ 53`. -/
def f64of (n : Nat) : Nat :=
  if n < 2 ^ 53 then n
  else roundHalfEvenDiv n (2 ^ (bitLen n - 53)) * 2 ^ (bitLen n - 53)

/-- Go's `fmt.Sprintf("%.1f", x)` for the nonnegative value `x = a / 2 ^ k`. -/
def sprintf1f (a k : Nat) : String :=
  let n := roundHalfEvenDiv (a * 10) (2 ^ k)
  toString (n / 10) ++ "." ++ toString (n % 10)

/-- Two-digit zero-padded rendering of `k < 100`. -/
def pad2 (k : Nat) : String := (if k < 10 then "0" else "") ++ toString k

/-- Go's `fmt.Sprintf("%.2f", x)` for the nonnegative value `x = a / 2 ^ k`. -/
def sprintf2f (a k : Nat) : String :=
  let n := roundHalfEvenDiv (a * 100) (2 ^ k)
  toString (n / 100) ++ "." ++ pad2 (n % 100)

/-- go/format.go `HumanSize`: pick the largest unit among B/KB/MB/GB/TB whose
threshold the value reaches; bytes print as `%d B`, KB/MB/GB as `%.1f`, TB as
`%.2f`. -/
def HumanSize (bytes : Nat) : String :=
  if TB ≤ bytes then sprintf2f (f64of bytes) 40 ++ " TB"
  else if GB ≤ bytes then sprintf1f (f64of bytes) 30 ++ " GB"
  else if MB ≤ bytes then sprintf1f (f64of bytes) 20 ++ " MB"
  else if KB ≤ bytes then sprintf1f (f64of bytes) 10 ++ " KB"
  else toString bytes ++ " B"

/-! ### go/format.go: `ParseSize`

`strconv.ParseFloat` parses a decimal literal (optional sign, digits with
optional fraction and exponent), rounds its exact value to the nearest
float64 (IEEE 754 binary64, ties to even), and reports `ErrRange` when the
value overflows the float64 range (underflow to zero is not an error).  The
embedding mirrors this in two stages: `parseDecLit` is the syntactic stage,
producing the exact decimal value `(-1)^neg * mant * 10 ^ exp10`, and
`float64OfDecimal` is the rounding stage, producing the rounded
significand/exponent pair or `none` on overflow.  Go additionally accepts
`inf`/`nan` spellings, hexadecimal floats and digit-group underscores; none
of these is a size string and no theorem's domain contains them, so they
are not modelled. -/

/-- A syntactically parsed decimal literal, exact value
`(-1)^neg * mant * 10 ^ exp10`. -/
structure DecLit where
  neg : Bool
  mant : Nat
  exp10 : Int
  deriving DecidableEq

/-- Split an optional leading sign from a literal. -/
def splitSign : List Char → Bool × List Char
  | [] => (false, [])
  | c :: t => if c = '-' then (true, t) else if c = '+' then (false, t) else (false, c :: t)

/-- The syntactic stage of `strconv.ParseFloat` on decimal literals. -/
def parseDecLit (l : List Char) : Option DecLit :=
  let s := splitSign l
  let ip := s.2.takeWhile isDigit
  let r2 := s.2.dropWhile isDigit
  let fp := if r2.head? = some '.' then r2.tail.takeWhile isDigit else []
  let r3 := if r2.head? = some '.' then r2.tail.dropWhile isDigit else r2
  if ip.length + fp.length = 0 then none
  else
    match r3 with
    | [] => some ⟨s.1, digitsVal (ip ++ fp), -(fp.length : Int)⟩
    | e :: t =>
      if e = 'E' ∨ e = 'e' then
        let es := splitSign t
        let ed := es.2.takeWhile isDigit
        let r4 := es.2.dropWhile isDigit
        if ed = [] ∨ r4 ≠ [] then none
        else
          some ⟨s.1, digitsVal (ip ++ fp),
            (if es.1 then -(digitsVal ed : Int) else (digitsVal ed : Int)) - (fp.length : Int)⟩
      else none

/-! ### IEEE 754 binary64 rounding

`natBits`, `roundAtT` and `f64Normalize` implement correct rounding of an
exact positive rational `num / den` to the nearest float64
(round-to-nearest, ties to even): the result is a pair `(q, t)` denoting
`q * 2 ^ t` with `q < 2 ^ 53` and `t ≥ -1074` (the subnormal bound).
Overflow is the case `t > 971`, the largest finite float64 being
`(2 ^ 53 - 1) * 2 ^ 971`. -/

/-- Bit-counting helper; the first argument is fuel, and any `fuel ≥ n`
yields the bit count of `n` (which is at most `n`). -/
def natBitsAux : Nat → Nat → Nat
  | 0, _ => 0
  | fuel + 1, n => if n = 0 then 0 else natBitsAux fuel (n / 2) + 1

/-- Number of binary digits of `n` (`natBits 0 = 0`). -/
def natBits (n : Nat) : Nat := natBitsAux n n

/-- Round the exact rational `num / den` to the nearest multiple of
`2 ^ t`, ties to even; the result is the multiplier of `2 ^ t`. -/
def roundAtT (num den : Nat) (t : Int) : Nat :=
  if 0 ≤ t then roundHalfEvenDiv num (den * 2 ^ t.toNat)
  else roundHalfEvenDiv (num * 2 ^ (-t).toNat) den

/-- Round a positive rational `num / den` to float64 precision: 53
significant bits, ties to even, exponent clamped at -1074.  The initial
exponent guess `E` satisfies `2 ^ (E-1) < num/den < 2 ^ (E+1)`, so the
first rounding lands in `[2 ^ 52, 2 ^ 54]` and at most two exponent bumps
are needed; each bump re-rounds from the exact rational, so there is no
double rounding.  (The final fallback is unreachable: at `t0 + 2` the
scaled value is below `2 ^ 52`.) -/
def f64Normalize (num den : Nat) : Nat × Int :=
  let E : Int := (natBits num : Int) - (natBits den : Int)
  let t0 : Int := max (E - 53) (-1074)
  let q0 := roundAtT num den t0
  if q0 < 2 ^ 53 then (q0, t0)
  else
    let q1 := roundAtT num den (t0 + 1)
    if q1 < 2 ^ 53 then (q1, t0 + 1)
    else (roundAtT num den (t0 + 2), t0 + 2)

/-- The float64 value of the exact decimal `m * 10 ^ e`: the rounded
significand/exponent pair, or `none` when the value overflows the float64
range (strconv's `ErrRange`; underflow to zero returns `0` without error,
matching strconv). -/
def float64OfDecimal (m : Nat) (e : Int) : Option (Nat × Int) :=
  if m = 0 then some (0, 0)
  else
    let nd := if 0 ≤ e then (m * 10 ^ e.toNat, 1) else (m, 10 ^ (-e).toNat)
    let qt := f64Normalize nd.1 nd.2
    if qt.2 ≤ 971 then some qt else none

/-- A finite float64 as returned by `strconv.ParseFloat`: value
`(-1)^neg * sig * 2 ^ exp` with `sig < 2 ^ 53`. -/
structure GoFloat where
  neg : Bool
  sig : Nat
  exp : Int
  deriving DecidableEq

/-- Assemble `ParseFloat`'s result from the sign and the rounded magnitude
(`none` propagates the overflow error). -/
def mkGoFloat (neg : Bool) (qt : Option (Nat × Int)) : Option GoFloat :=
  match qt with
  | none => none
  | some qt => some ⟨neg, qt.1, qt.2⟩

/-- Model of `strconv.ParseFloat` on decimal literals: syntax, then correct
rounding to the nearest float64, with `none` for both syntax errors and
`ErrRange` overflow (go/format.go turns any `ParseFloat` error into the
same invalid-number failure). -/
def ParseFloat (l : List Char) : Option GoFloat :=
  (parseDecLit l).bind fun v => mkGoFloat v.neg (float64OfDecimal v.mant v.exp10)

/-- The error cases of go/format.go `ParseSize` (`InvalidFormat` taxonomy):
empty input, unparsable or out-of-range number, negative number. -/
inductive SizeErr where
  | empty : SizeErr
  | invalidNumber : SizeErr
  | negative : SizeErr
  deriving DecidableEq

instance : DecidableEq (Except SizeErr Nat)
  | .ok a, .ok b => decidable_of_iff (a = b) (by simp)
  | .ok _, .error _ => isFalse (by simp)
  | .error _, .ok _ => isFalse (by simp)
  | .error a, .error b => decidable_of_iff (a = b) (by simp)

/-- Go's `uint64(num * float64(multiplier))` for the nonnegative finite
float64 `q * 2 ^ t`: the multiplier is a power of two at most `2 ^ 40`, so
`float64(multiplier)` is exact and the product is either exact or
overflows to +Inf; the conversion truncates toward zero.  For products at
or above `2 ^ 64` (+Inf included) the conversion is implementation-defined
in the Go specification; the model returns `2 ^ 63`, the amd64 result — no
theorem depends on that branch. -/
def truncFloatMul (q : Nat) (t : Int) (mult : Nat) : Nat :=
  let v := if 0 ≤ t then q * 2 ^ t.toNat * mult else q * mult / 2 ^ (-t).toNat
  if v < 2 ^ 64 then v else 2 ^ 63

/-- The suffix `switch` of go/format.go `ParseSize`: strip the longest
matching unit suffix among TB/GB/MB/KB/B, checked in that order, returning
the remaining number string and the multiplier. -/
def selectSuffix (l : List Char) : List Char × Nat :=
  if hasSuffix l ['T', 'B'] then (trimSuffix l ['T', 'B'], TB)
  else if hasSuffix l ['G', 'B'] then (trimSuffix l ['G', 'B'], GB)
  else if hasSuffix l ['M', 'B'] then (trimSuffix l ['M', 'B'], MB)
  else if hasSuffix l ['K', 'B'] then (trimSuffix l ['K', 'B'], KB)
  else if hasSuffix l ['B'] then (trimSuffix l ['B'], 1)
  else (l, 1)

/-- The tail of go/format.go `ParseSize` after `strconv.ParseFloat` returns:
a parse or range failure is `InvalidFormat`; a negative number (`num < 0`,
i.e. a set sign with a nonzero significand — `-0` is not negative) is
rejected; otherwise `num * multiplier` is truncated. -/
def parseNumVal (f : Option GoFloat) (mult : Nat) : Except SizeErr Nat :=
  match f with
  | none => .error .invalidNumber
  | some f =>
    if f.neg ∧ f.sig ≠ 0 then .error .negative
    else .ok (truncFloatMul f.sig f.exp mult)

/-- go/format.go `ParseSize` after the suffix switch: trim the number string
(`numStr = strings.TrimSpace(numStr)`), run `strconv.ParseFloat` and finish. -/
def parseNum (numStr : List Char) (mult : Nat) : Except SizeErr Nat :=
  parseNumVal (ParseFloat (trimSpace numStr)) mult

/-- go/format.go `ParseSize`: upper-case and trim, strip the longest matching
unit suffix (the `selectSuffix` switch), parse the remaining number, reject
negatives, and truncate `num * multiplier` to an integer. -/
def ParseSize (s : String) : Except SizeErr Nat :=
  let l := trimSpace (s.data.map toUpperChar)
  if l = [] then .error .empty
  else parseNum (selectSuffix l).1 (selectSuffix l).2

/-! ### go/format.go: `TruncatePath`

Go strings are byte slices; `len(path)` counts bytes and
`path[len(path)-maxLen+3:]` slices at a byte offset.  The embedding therefore
works on the UTF-8 byte sequence of the path. -/

/-- UTF-8 encoding of a Unicode scalar value. -/
def utf8Bytes (c : Nat) : List Nat :=
  if c < 128 then [c]
  else if c < 2048 then [192 + c / 64, 128 + c % 64]
  else if c < 65536 then [224 + c / 4096, 128 + c / 64 % 64, 128 + c % 64]
  else [240 + c / 262144, 128 + c / 4096 % 64, 128 + c / 64 % 64, 128 + c % 64]

/-- The UTF-8 bytes of a Lean string, i.e. the Go string's contents. -/
def strBytes (s : String) : List Nat := (s.data.map (fun c => utf8Bytes c.toNat)).flatten

/-- The bytes of the literal `"..."`. -/
def dotBytes : List Nat := [46, 46, 46]

/-- go/format.go `TruncatePath`: return the path if it fits, `"..."` when
`maxLen <= 3`, else `"..."` plus the last `maxLen - 3` bytes of the path
(Go slices `path[len(path)-maxLen+3:]`, a raw byte offset). -/
def TruncatePath (path : List Nat) (maxLen : Int) : List Nat :=
  if (path.length : Int) ≤ maxLen then path
  else if maxLen ≤ 3 then dotBytes
  else dotBytes ++ path.drop ((path.length : Int) - maxLen + 3).toNat

/-- A byte sequence is structurally well-formed UTF-8: every lead byte is
followed by the right number of continuation bytes and continuation bytes
appear nowhere else.  (This check is necessary for UTF-8 validity, so any
sequence it rejects is genuinely corrupted.) -/
def validUTF8 : List Nat → Bool
  | [] => true
  | b :: t =>
    if b < 128 then validUTF8 t
    else if 194 ≤ b && b ≤ 223 then
      match t with
      | c1 :: t2 => (128 ≤ c1 && c1 ≤ 191) && validUTF8 t2
      | [] => false
    else if 224 ≤ b && b ≤ 239 then
      match t with
      | c1 :: c2 :: t2 =>
        (128 ≤ c1 && c1 ≤ 191) && (128 ≤ c2 && c2 ≤ 191) && validUTF8 t2
      | _ => false
    else if 240 ≤ b && b ≤ 244 then
      match t with
      | c1 :: c2 :: c3 :: t2 =>
        (128 ≤ c1 && c1 ≤ 191) && (128 ≤ c2 && c2 ≤ 191) && (128 ≤ c3 && c3 ≤ 191) &&
          validUTF8 t2
      | _ => false
    else false

/-! ### go/format.go: `HumanDuration`

Durations are `int64` nanosecond counts.  The code computes
`secs := int64(d.Seconds())`, and `Duration.Seconds` is
`float64(d / 1e9) + float64(d % 1e9) / 1e9`: the two integer-to-float64
conversions are exact (`|d / 1e9| < 2 ^ 34` and `|d % 1e9| < 2 ^ 30`), but
the division by `1e9` and the addition each round to the nearest float64,
so for large durations the whole-second count can differ from exact
truncated division (16777259 s + 999999999 ns rounds up to 16777260.0).
`goSecondsNat`/`goSeconds` reproduce exactly these two IEEE roundings; the
final `int64` conversion truncates toward zero and is always in range.
`d.Milliseconds()` is exact integer division by `10 ^ 6`. -/

/-- Go's `int64(d.Seconds())` for the nonnegative decomposition
`d = sec * 1e9 + nsec`: round `nsec / 1e9` to float64, add `sec` (itself
exactly representable) and round again, then truncate.  `f.2 ≤ 0` always,
since `nsec / 1e9 < 1`. -/
def goSecondsNat (sec nsec : Nat) : Nat :=
  let f := f64Normalize nsec 1000000000
  let j := (-f.2).toNat
  let s := f64Normalize (sec * 2 ^ j + f.1) (2 ^ j)
  if 0 ≤ s.2 then s.1 * 2 ^ s.2.toNat else s.1 / 2 ^ (-s.2).toNat

/-- Go's `int64(d.Seconds())` on a nanosecond count; IEEE rounding and
truncation are sign-symmetric, so the sign factors out of the
`sec`/`nsec` decomposition (both parts carry the sign of `d`). -/
def goSeconds (d : Int) : Int :=
  if d < 0 then
    -(goSecondsNat (goDiv d 1000000000).natAbs (goMod d 1000000000).natAbs : Int)
  else (goSecondsNat (goDiv d 1000000000).natAbs (goMod d 1000000000).natAbs : Int)

/-- go/format.go `HumanDuration` on a nanosecond count. -/
def HumanDuration (d : Int) : String :=
  let secs := goSeconds d
  let millis := goMod (goDiv d 1000000) 1000
  if secs = 0 then toString (goDiv d 1000000) ++ "ms"
  else if secs < 60 then toString secs ++ "." ++ toString (goDiv millis 100) ++ "s"
  else if secs < 3600 then
    toString (goDiv secs 60) ++ "m " ++ toString (goMod secs 60) ++ "s"
  else
    toString (goDiv secs 3600) ++ "h " ++ toString (goDiv (goMod secs 3600) 60) ++ "m"

/-! ### go/messages.go: message printers and their streams

fatih/color's `(*Color).Sprint` wraps its argument in an ANSI escape pair
when colour output is enabled and returns it verbatim otherwise; the enabled
flag is read when `Sprint` runs.  go/messages.go calls `Sprint` once, in the
package-level `var` block, so each icon string is computed from the colour
state at package initialisation and cached for the process lifetime.  `Dim`
is different: it calls `dimStyle.Sprint(msg)` inside the function body, so it
reads the flag at every call. -/

/-- An output stream: Go's `os.Stdout` or `os.Stderr`. -/
inductive StdStream where
  | out : StdStream
  | err : StdStream
  deriving DecidableEq

/-- ANSI SGR escape sequence for one attribute code. -/
def colorSeq (code : Nat) : String := "\x1b[" ++ toString code ++ "m"

/-- Model of fatih/color `(*Color).Sprint`: style the text iff colour output
is enabled at the moment of the call. -/
def sprintColor (enabled : Bool) (code : Nat) (s : String) : String :=
  if enabled then colorSeq code ++ s ++ colorSeq 0 else s

/-- The four icon strings of go/messages.go, as computed in its package
`var` block from the colour state current at package initialisation
(FgBlue 34, FgGreen 32, FgYellow 33, FgRed 31). -/
structure MsgIcons where
  infoIcon : String
  successIcon : String
  warnIcon : String
  errorIcon : String
  deriving DecidableEq

/-- go/messages.go package initialisation: the icons are rendered once, with
the colour flag read at that moment, and cached in package variables. -/
def initIcons (enabledAtInit : Bool) : MsgIcons :=
  ⟨sprintColor enabledAtInit 34 "ℹ",
    sprintColor enabledAtInit 32 "✓",
    sprintColor enabledAtInit 33 "⚠",
    sprintColor enabledAtInit 31 "✗"⟩

/-- go/messages.go `Info`: `fmt.Printf("%s %s\n", infoIcon, msg)` to stdout. -/
def Info (icons : MsgIcons) (msg : String) : StdStream × String :=
  (.out, icons.infoIcon ++ " " ++ msg ++ "\n")

/-- go/messages.go `Success`: prints the success icon and message to stdout. -/
def Success (icons : MsgIcons) (msg : String) : StdStream × String :=
  (.out, icons.successIcon ++ " " ++ msg ++ "\n")

/-- go/messages.go `Warn`: prints the warning icon and message to stdout. -/
def Warn (icons : MsgIcons) (msg : String) : StdStream × String :=
  (.out, icons.warnIcon ++ " " ++ msg ++ "\n")

/-- go/messages.go `Error`: `fmt.Fprintf(os.Stderr, "%s %s\n", errorIcon, msg)`. -/
def ErrorMsg (icons : MsgIcons) (msg : String) : StdStream × String :=
  (.err, icons.errorIcon ++ " " ++ msg ++ "\n")

/-- go/messages.go `Dim`: `fmt.Printf("  %s\n", dimStyle.Sprint(msg))`; the
`Sprint` call happens per invocation, so it reads the current colour flag
(Faint is SGR code 2). -/
def Dim (enabledNow : Bool) (msg : String) : StdStream × String :=
  (.out, "  " ++ sprintColor enabledNow 2 msg ++ "\n")

/-- Rendering of an info line that consults the colour flag at the moment of
writing, which is what the specification's §4.1 requires of every rendering
component ("not cached at creation"). -/
def infoLineDynamic (enabledNow : Bool) (msg : String) : String :=
  sprintColor enabledNow 34 "ℹ" ++ " " ++ msg ++ "\n"

/-! ### ColorState initialisation (spec-modelled)

The colour-state `init()` that reads `NO_COLOR`, `CLICOLOR_FORCE` and
`CLICOLOR` is part of the repository's progress/colour engine whose source is
not in the Go module under verification; it is modelled from the
specification §4.1. -/

/-- Truthiness of an environment-variable value: set to something other than
empty or `"0"`. -/
def envTruthy (v : String) : Bool := v ≠ "" && v ≠ "0"

/-- Modelled from the spec: the ColorState `init()` of §4.1 (the colour
initialisation code is not among the provided sources).  Precedence:
`NO_COLOR` set non-empty forces off; else `CLICOLOR_FORCE` truthy forces on;
else `CLICOLOR` set to `"0"` disables and any other set value enables; else
colour is on iff the output stream is a terminal. -/
def colorInitEnabled (noColor clicolorForce clicolor : Option String) (isTTY : Bool) : Bool :=
  if (match noColor with | some v => v != "" | none => false) then false
  else if (match clicolorForce with | some v => envTruthy v | none => false) then true
  else
    match clicolor with
    | some v => if v = "0" then false else true
    | none => isTTY

/-! ### The progress source: spinner and bar finishing calls

The repository's progress module (the `Spinner`/`SpinnerHandle`,
`Bar`/`BarHandle` and `StageProgress` source concatenated into
src/go/messages_test.go) finishes a spinner by calling the
briandowns/spinner library's `Stop()` and then printing
`"\r<icon> <msg>\n"`: `fmt.Printf` (stdout) for Success and Warn,
`fmt.Fprintf(os.Stderr, ...)` for Error, and `fmt.Print("\r\x1b[K")` for
Clear.  The icons come from `color.GreenString`/`RedString`/`YellowString`,
which consult the colour flag at call time.  `BarHandle.Success`/`Error`
call the bar's `Finish()` and print the same way; `BarHandle.Clear` calls
the bar's `Clear()`.  Neither `Spinner()` nor `Bar()` overrides its
library's output writer, which defaults to `os.Stdout` both for
briandowns/spinner frames and for schollz/progressbar redraws. -/

/-- SpinnerHandle.Success: stop the ticker, then print the final line to
stdout. -/
def SpinnerHandleSuccess (enabledNow : Bool) (msg : String) : StdStream × String :=
  (.out, "\r" ++ sprintColor enabledNow 32 "✓" ++ " " ++ msg ++ "\n")

/-- SpinnerHandle.Error: stop the ticker, then print the final line to
stderr. -/
def SpinnerHandleError (enabledNow : Bool) (msg : String) : StdStream × String :=
  (.err, "\r" ++ sprintColor enabledNow 31 "✗" ++ " " ++ msg ++ "\n")

/-- SpinnerHandle.Warn: stop the ticker, then print the final line to
stdout. -/
def SpinnerHandleWarn (enabledNow : Bool) (msg : String) : StdStream × String :=
  (.out, "\r" ++ sprintColor enabledNow 33 "⚠" ++ " " ++ msg ++ "\n")

/-- SpinnerHandle.Clear: stop the ticker, then erase the line on stdout. -/
def SpinnerHandleClear : StdStream × String := (.out, "\r\x1b[K")

/-- BarHandle.Success: finish the bar, then print the final line to stdout. -/
def BarHandleSuccess (enabledNow : Bool) (msg : String) : StdStream × String :=
  (.out, "\r" ++ sprintColor enabledNow 32 "✓" ++ " " ++ msg ++ "\n")

/-- BarHandle.Error: finish the bar, then print the final line to stderr. -/
def BarHandleError (enabledNow : Bool) (msg : String) : StdStream × String :=
  (.err, "\r" ++ sprintColor enabledNow 31 "✗" ++ " " ++ msg ++ "\n")

/-- The stream spinner animation frames are written to: briandowns/spinner's
default `Writer` is `os.Stdout`, and neither `Spinner()` nor
`StageProgress.Next` overrides it. -/
def spinnerFrameStream : StdStream := .out

/-- The stream bar redraws (and `BarHandle.Clear`) are written to:
schollz/progressbar's default writer is `os.Stdout`, and `Bar()` does not
override it. -/
def barWriterStream : StdStream := .out

/-! ### The size-string grammar of specification §6

`<number>[<unit>]`, unit ∈ {B, KB, MB, GB, TB} case-insensitive, optional
surrounding white space, plain decimal numbers, no sign. -/

/-- A size-string unit suffix, or its absence. -/
inductive SizeUnit where
  | unitB : SizeUnit
  | unitKB : SizeUnit
  | unitMB : SizeUnit
  | unitGB : SizeUnit
  | unitTB : SizeUnit
  | noUnit : SizeUnit
  deriving DecidableEq

/-- The upper-case spelling of a unit suffix. -/
def SizeUnit.chars : SizeUnit → List Char
  | .unitB => ['B']
  | .unitKB => ['K', 'B']
  | .unitMB => ['M', 'B']
  | .unitGB => ['G', 'B']
  | .unitTB => ['T', 'B']
  | .noUnit => []

/-- The byte multiplier of a unit suffix. -/
def SizeUnit.mult : SizeUnit → Nat
  | .unitB => 1
  | .unitKB => KB
  | .unitMB => MB
  | .unitGB => GB
  | .unitTB => TB
  | .noUnit => 1

/-- The character list of the decimal literal with integer digits `d1` and
fractional digits `d2` (the dot is present exactly when `d2` is nonempty). -/
def decimalChars (d1 d2 : List Char) : List Char :=
  d1 ++ (if d2 = [] then [] else '.' :: d2)

/-- Round `a / h` (for `h > 0`) to the nearest natural number, halves away
from zero. -/
def roundNearestDiv (a h : Nat) : Nat := (2 * a + h) / (2 * h)

/-- The byte count claim C1 predicts for the size literal with digits
`d1.d2` and unit `u`: `round(number * unit_multiplier)`, where the number is
`digitsVal (d1 ++ d2) / 10 ^ d2.length`. -/
def sizeRound (d1 d2 : List Char) (u : SizeUnit) : Nat :=
  roundNearestDiv (digitsVal (d1 ++ d2) * u.mult) (10 ^ d2.length)

/-- The byte count go/format.go actually returns for the decimal with
mantissa `m` and `k` fraction digits under multiplier `mult`: the decimal's
nearest-float64 value times the multiplier, truncated toward zero, with the
invalid-number failure when the literal overflows float64. -/
def sizeTruncF64 (m k mult : Nat) : Except SizeErr Nat :=
  match float64OfDecimal m (-(k : Int)) with
  | none => .error .invalidNumber
  | some qt => .ok (truncFloatMul qt.1 qt.2 mult)

end Pintui

namespace Pintui

/-! ### Supporting lemmas: characters -/

lemma isDigit_toNat {c : Char} (h : isDigit c = true) : 48 ≤ c.toNat ∧ c.toNat ≤ 57 := by
  simpa [isDigit, Bool.and_eq_true, decide_eq_true_eq] using h

lemma digit_ne {c : Char} (h : isDigit c = true) (d : Char) (hd : 57 < d.toNat) : c ≠ d := by
  intro e
  subst e
  have := isDigit_toNat h
  omega

lemma dot_ne (d : Char) (hd : 57 < d.toNat) : '.' ≠ d := by
  intro e
  have h46 : ('.').toNat = 46 := by decide
  rw [e] at h46
  omega

lemma not_isSpace_of_toNat {c : Char} (h : 33 ≤ c.toNat) : isSpace c = false := by
  simp only [isSpace, Bool.or_eq_false_iff, Bool.and_eq_false_iff, decide_eq_false_iff_not]
  omega

lemma isSpace_toNat {c : Char} (h : isSpace c = true) : c.toNat ≤ 32 := by
  simp only [isSpace, Bool.or_eq_true, Bool.and_eq_true, decide_eq_true_eq] at h
  omega

lemma toUpperChar_of_lt {c : Char} (h : c.toNat < 97) : toUpperChar c = c := by
  unfold toUpperChar
  rw [if_neg]
  simp only [Bool.and_eq_true, decide_eq_true_eq, not_and]
  omega

lemma toUpperChar_digit {c : Char} (h : isDigit c = true) : toUpperChar c = c :=
  toUpperChar_of_lt (by have := isDigit_toNat h; omega)

lemma toUpperChar_space {c : Char} (h : isSpace c = true) : toUpperChar c = c :=
  toUpperChar_of_lt (by have := isSpace_toNat h; omega)

lemma isDigit_false_dot : isDigit '.' = false := by decide

/-! ### Supporting lemmas: takeWhile, dropWhile, trimSpace -/

lemma takeWhile_of_all {p : Char → Bool} {l : List Char} (h : ∀ c ∈ l, p c = true) :
    l.takeWhile p = l :=
  List.takeWhile_eq_self_iff.mpr h

lemma dropWhile_of_all {p : Char → Bool} {l : List Char} (h : ∀ c ∈ l, p c = true) :
    l.dropWhile p = [] := by
  induction l with
  | nil => rfl
  | cons c t ih =>
    rw [List.dropWhile_cons, if_pos (h c (List.mem_cons_self c t))]
    exact ih fun x hx => h x (List.mem_cons_of_mem c hx)

lemma dropWhile_of_none {p : Char → Bool} {l : List Char} (h : ∀ c ∈ l, p c = false) :
    l.dropWhile p = l := by
  cases l with
  | nil => rfl
  | cons c t =>
    rw [List.dropWhile_cons, if_neg]
    simp [h c (List.mem_cons_self c t)]

lemma dropWhile_append_of_all {p : Char → Bool} {l1 : List Char} (l2 : List Char)
    (h : ∀ c ∈ l1, p c = true) : (l1 ++ l2).dropWhile p = l2.dropWhile p := by
  induction l1 with
  | nil => rfl
  | cons c t ih =>
    rw [List.cons_append, List.dropWhile_cons, if_pos (h c (List.mem_cons_self c t))]
    exact ih fun x hx => h x (List.mem_cons_of_mem c hx)

lemma takeWhile_append_stop {p : Char → Bool} {l1 : List Char} {y : Char} (l2 : List Char)
    (h : ∀ c ∈ l1, p c = true) (hy : p y = false) :
    (l1 ++ y :: l2).takeWhile p = l1 ∧ (l1 ++ y :: l2).dropWhile p = y :: l2 := by
  induction l1 with
  | nil =>
    constructor
    · rw [List.nil_append, List.takeWhile_cons, if_neg (by simp [hy])]
    · rw [List.nil_append, List.dropWhile_cons, if_neg (by simp [hy])]
  | cons c t ih =>
    have hc := h c (List.mem_cons_self c t)
    have ih2 := ih fun x hx => h x (List.mem_cons_of_mem c hx)
    constructor
    · rw [List.cons_append, List.takeWhile_cons, if_pos hc, ih2.1]
    · rw [List.cons_append, List.dropWhile_cons, if_pos hc, ih2.2]

lemma trimSpace_sandwich {ws1 ws2 core : List Char} (h1 : ∀ c ∈ ws1, isSpace c = true)
    (h2 : ∀ c ∈ ws2, isSpace c = true) (hc : ∀ c ∈ core, isSpace c = false) :
    trimSpace (ws1 ++ core ++ ws2) = core := by
  unfold trimSpace
  rw [List.append_assoc, dropWhile_append_of_all (core ++ ws2) h1]
  cases core with
  | nil =>
    rw [List.nil_append, dropWhile_of_all h2]
    rfl
  | cons c t =>
    rw [List.cons_append, List.dropWhile_cons, if_neg (by simp [hc c (List.mem_cons_self c t)])]
    rw [show (c :: (t ++ ws2)) = (c :: t) ++ ws2 from rfl, List.reverse_append]
    rw [dropWhile_append_of_all (c :: t).reverse fun x hx => h2 x (List.mem_reverse.mp hx)]
    rw [dropWhile_of_none fun x hx => hc x (List.mem_reverse.mp hx), List.reverse_reverse]

lemma trimSpace_of_none {core : List Char} (hc : ∀ c ∈ core, isSpace c = false) :
    trimSpace core = core := by
  have := @trimSpace_sandwich [] [] core (by simp) (by simp) hc
  simpa using this

/-! ### Supporting lemmas: hasSuffix, trimSuffix -/

lemma hasSuffix_append (xs ys : List Char) : hasSuffix (xs ++ ys) ys = true := by
  unfold hasSuffix
  rw [List.reverse_append, ← List.length_reverse ys, List.take_left]
  simp

lemma hasSuffix_false_of_not_mem {l suf : List Char} {c : Char} (hc : c ∈ suf)
    (hl : ∀ x ∈ l, x ≠ c) : hasSuffix l suf = false := by
  unfold hasSuffix
  apply decide_eq_false
  intro hEq
  have hmem : c ∈ suf.reverse := List.mem_reverse.mpr hc
  rw [← hEq] at hmem
  exact hl c (List.mem_reverse.mp (List.mem_of_mem_take hmem)) rfl

lemma hasSuffix_pair_false {xs : List Char} {b y : Char} (hne : xs ≠ [])
    (h : ∀ x ∈ xs, x ≠ y) : hasSuffix (xs ++ [b]) [y, b] = false := by
  unfold hasSuffix
  apply decide_eq_false
  intro hEq
  rw [List.reverse_append] at hEq
  cases hx : xs.reverse with
  | nil => exact hne (by simpa using congrArg List.reverse hx)
  | cons c r =>
    rw [hx] at hEq
    simp only [List.reverse_cons, List.reverse_nil, List.nil_append, List.length_cons,
      List.length_nil, List.cons_append, List.take] at hEq
    have hcy : c = y := by
      have := congrArg (fun l => l.get? 1) hEq
      simpa using this
    have : c ∈ xs := List.mem_reverse.mp (by rw [hx]; exact List.mem_cons_self c r)
    exact h c this hcy

lemma trimSuffix_append (xs ys : List Char) : trimSuffix (xs ++ ys) ys = xs := by
  unfold trimSuffix
  rw [hasSuffix_append, if_pos rfl]
  rw [List.reverse_append, ← List.length_reverse ys, List.drop_left, List.reverse_reverse]

lemma digit_ne_lo {c : Char} (h : isDigit c = true) (d : Char) (hd : d.toNat < 48) : c ≠ d := by
  intro e
  subst e
  have := isDigit_toNat h
  omega

lemma map_toUpper_fix {l : List Char} (h : ∀ c ∈ l, c.toNat < 97) : l.map toUpperChar = l := by
  induction l with
  | nil => rfl
  | cons c t ih =>
    rw [List.map_cons, toUpperChar_of_lt (h c (List.mem_cons_self c t)),
      ih fun x hx => h x (List.mem_cons_of_mem c hx)]

/-! ### Supporting lemmas: parseDecLit on plain decimal literals -/

lemma splitSign_digit_head {c : Char} {t : List Char} (h : isDigit c = true) :
    splitSign (c :: t) = (false, c :: t) := by
  simp only [splitSign]
  rw [if_neg (digit_ne_lo h '-' (by decide)), if_neg (digit_ne_lo h '+' (by decide))]

lemma parseDecLit_digits {d1 : List Char} (h : ∀ c ∈ d1, isDigit c = true) (hne : d1 ≠ []) :
    parseDecLit d1 = some ⟨false, digitsVal d1, 0⟩ := by
  obtain ⟨c, t, rfl⟩ := List.exists_cons_of_ne_nil hne
  have hall : ∀ x ∈ c :: t, isDigit x = true := h
  simp only [parseDecLit, splitSign_digit_head (h c (List.mem_cons_self c t)),
    takeWhile_of_all hall, dropWhile_of_all hall]
  simp [digitsVal]

lemma parseDecLit_digits_dot {d1 d2 : List Char} (h1 : ∀ c ∈ d1, isDigit c = true)
    (h2 : ∀ c ∈ d2, isDigit c = true) (hne1 : d1 ≠ []) :
    parseDecLit (d1 ++ '.' :: d2) = some ⟨false, digitsVal (d1 ++ d2), -(d2.length : Int)⟩ := by
  obtain ⟨c, t, rfl⟩ := List.exists_cons_of_ne_nil hne1
  have hsplit := @takeWhile_append_stop isDigit (c :: t) '.' d2 h1
    isDigit_false_dot
  have hsign : splitSign ((c :: t) ++ '.' :: d2) = (false, (c :: t) ++ '.' :: d2) := by
    rw [List.cons_append]
    exact splitSign_digit_head (h1 c (List.mem_cons_self c t))
  simp only [parseDecLit, hsign, hsplit.1, hsplit.2, List.head?_cons, List.tail_cons,
    takeWhile_of_all h2, dropWhile_of_all h2]
  simp [digitsVal]

/-! ### Evaluation of `ParseSize` on every well-formed size literal -/

lemma ParseSize_unfold (s : String) :
    ParseSize s = if trimSpace (s.data.map toUpperChar) = [] then .error .empty
      else parseNum (selectSuffix (trimSpace (s.data.map toUpperChar))).1
        (selectSuffix (trimSpace (s.data.map toUpperChar))).2 := rfl

lemma ParseSize_eval (ws1 ws2 d1 d2 us : List Char) (u : SizeUnit)
    (hw1 : ∀ c ∈ ws1, isSpace c = true) (hw2 : ∀ c ∈ ws2, isSpace c = true)
    (h1 : ∀ c ∈ d1, isDigit c = true) (h2 : ∀ c ∈ d2, isDigit c = true)
    (hne : d1 ≠ []) (hu : us.map toUpperChar = u.chars) :
    ParseSize ⟨ws1 ++ (decimalChars d1 d2 ++ us) ++ ws2⟩
      = sizeTruncF64 (digitsVal (d1 ++ d2)) d2.length u.mult := by
  have hnum_mem : ∀ x ∈ decimalChars d1 d2, isDigit x = true ∨ x = '.' := by
    intro x hx
    simp only [decimalChars] at hx
    rcases List.mem_append.mp hx with hx1 | hx2
    · exact Or.inl (h1 x hx1)
    · by_cases hd : d2 = []
      · rw [if_pos hd] at hx2
        simp at hx2
      · rw [if_neg hd] at hx2
        rcases List.mem_cons.mp hx2 with rfl | hx3
        · exact Or.inr rfl
        · exact Or.inl (h2 x hx3)
  have hnum_ne : ∀ d : Char, 57 < d.toNat → ∀ x ∈ decimalChars d1 d2, x ≠ d := by
    intro d hd x hx
    rcases hnum_mem x hx with hdig | rfl
    · exact digit_ne hdig d hd
    · exact dot_ne d hd
  have hnum_lt97 : ∀ x ∈ decimalChars d1 d2, x.toNat < 97 := by
    intro x hx
    rcases hnum_mem x hx with hdig | rfl
    · have := isDigit_toNat hdig
      omega
    · decide
  have hnum_space : ∀ x ∈ decimalChars d1 d2, isSpace x = false := by
    intro x hx
    rcases hnum_mem x hx with hdig | rfl
    · exact not_isSpace_of_toNat (by have := isDigit_toNat hdig; omega)
    · decide
  have hnum_ne_nil : decimalChars d1 d2 ≠ [] := by
    intro hcontra
    simp only [decimalChars] at hcontra
    exact hne (List.append_eq_nil.mp hcontra).1
  have huc_lt97 : ∀ x ∈ u.chars, x.toNat < 97 := by
    cases u <;> intro x hx <;> simp only [SizeUnit.chars] at hx <;> fin_cases hx <;> decide
  have huc_space : ∀ x ∈ u.chars, isSpace x = false := by
    cases u <;> intro x hx <;> simp only [SizeUnit.chars] at hx <;> fin_cases hx <;> decide
  have hl : trimSpace ((ws1 ++ (decimalChars d1 d2 ++ us) ++ ws2).map toUpperChar)
      = decimalChars d1 d2 ++ u.chars := by
    have hmap : (ws1 ++ (decimalChars d1 d2 ++ us) ++ ws2).map toUpperChar
        = ws1 ++ (decimalChars d1 d2 ++ u.chars) ++ ws2 := by
      simp only [List.map_append]
      rw [map_toUpper_fix (fun c hc => by have := isSpace_toNat (hw1 c hc); omega),
        map_toUpper_fix hnum_lt97, hu,
        map_toUpper_fix (fun c hc => by have := isSpace_toNat (hw2 c hc); omega)]
    rw [hmap]
    refine trimSpace_sandwich hw1 hw2 ?_
    intro x hx
    rcases List.mem_append.mp hx with h | h
    · exact hnum_space x h
    · exact huc_space x h
  have hlne : ¬ decimalChars d1 d2 ++ u.chars = [] := by
    intro hcontra
    exact hnum_ne_nil (List.append_eq_nil.mp hcontra).1
  have hpf : parseDecLit (decimalChars d1 d2) =
      some ⟨false, digitsVal (d1 ++ d2), -(d2.length : Int)⟩ := by
    by_cases hd : d2 = []
    · subst hd
      simp only [decimalChars, if_pos rfl, List.append_nil]
      simpa using parseDecLit_digits h1 hne
    · simp only [decimalChars, if_neg hd]
      exact parseDecLit_digits_dot h1 h2 hne
  have hres : ∀ mult : Nat,
      parseNum (decimalChars d1 d2) mult
        = sizeTruncF64 (digitsVal (d1 ++ d2)) d2.length mult := by
    intro mult
    unfold parseNum ParseFloat
    rw [trimSpace_of_none hnum_space, hpf]
    cases hf : float64OfDecimal (digitsVal (d1 ++ d2)) (-(d2.length : Int)) with
    | none => simp [Option.bind, mkGoFloat, parseNumVal, sizeTruncF64, hf]
    | some qt => simp [Option.bind, mkGoFloat, parseNumVal, sizeTruncF64, hf]
  have e1 := hnum_ne 'B' (by decide)
  have e2 := hnum_ne 'T' (by decide)
  have e3 := hnum_ne 'G' (by decide)
  have e4 := hnum_ne 'M' (by decide)
  have e5 := hnum_ne 'K' (by decide)
  have hdata : (⟨ws1 ++ (decimalChars d1 d2 ++ us) ++ ws2⟩ : String).data
      = ws1 ++ (decimalChars d1 d2 ++ us) ++ ws2 := rfl
  cases u with
  | noUnit =>
    have s1 : hasSuffix (decimalChars d1 d2) ['T', 'B'] = false :=
      hasSuffix_false_of_not_mem (by decide) e1
    have s2 : hasSuffix (decimalChars d1 d2) ['G', 'B'] = false :=
      hasSuffix_false_of_not_mem (by decide) e1
    have s3 : hasSuffix (decimalChars d1 d2) ['M', 'B'] = false :=
      hasSuffix_false_of_not_mem (by decide) e1
    have s4 : hasSuffix (decimalChars d1 d2) ['K', 'B'] = false :=
      hasSuffix_false_of_not_mem (by decide) e1
    have s5 : hasSuffix (decimalChars d1 d2) ['B'] = false :=
      hasSuffix_false_of_not_mem (by decide) e1
    have hsel : selectSuffix (decimalChars d1 d2 ++ SizeUnit.chars SizeUnit.noUnit)
        = (decimalChars d1 d2, 1) := by
      simp only [SizeUnit.chars, List.append_nil]
      unfold selectSuffix
      rw [s1, s2, s3, s4, s5]
      simp
    rw [ParseSize_unfold, hdata, hl, if_neg hlne, hsel]
    exact hres 1
  | unitB =>
    have s1 : hasSuffix (decimalChars d1 d2 ++ ['B']) ['T', 'B'] = false :=
      hasSuffix_pair_false hnum_ne_nil e2
    have s2 : hasSuffix (decimalChars d1 d2 ++ ['B']) ['G', 'B'] = false :=
      hasSuffix_pair_false hnum_ne_nil e3
    have s3 : hasSuffix (decimalChars d1 d2 ++ ['B']) ['M', 'B'] = false :=
      hasSuffix_pair_false hnum_ne_nil e4
    have s4 : hasSuffix (decimalChars d1 d2 ++ ['B']) ['K', 'B'] = false :=
      hasSuffix_pair_false hnum_ne_nil e5
    have s5 : hasSuffix (decimalChars d1 d2 ++ ['B']) ['B'] = true := hasSuffix_append _ _
    have t5 : trimSuffix (decimalChars d1 d2 ++ ['B']) ['B'] = decimalChars d1 d2 :=
      trimSuffix_append _ _
    have hsel : selectSuffix (decimalChars d1 d2 ++ SizeUnit.chars SizeUnit.unitB)
        = (decimalChars d1 d2, 1) := by
      simp only [SizeUnit.chars]
      unfold selectSuffix
      rw [s1, s2, s3, s4, s5, t5]
      simp
    rw [ParseSize_unfold, hdata, hl, if_neg hlne, hsel]
    exact hres 1
  | unitKB =>
    have hxs : decimalChars d1 d2 ++ ['K', 'B'] = (decimalChars d1 d2 ++ ['K']) ++ ['B'] := by
      simp
    have hxne : decimalChars d1 d2 ++ ['K'] ≠ [] := by simp
    have hmemK : ∀ d : Char, 57 < d.toNat → d ≠ 'K' →
        ∀ x ∈ decimalChars d1 d2 ++ ['K'], x ≠ d := by
      intro d hd hdk x hx
      rcases List.mem_append.mp hx with h | h
      · exact hnum_ne d hd x h
      · simp at h
        subst h
        exact fun e => hdk e.symm
    have s1 : hasSuffix (decimalChars d1 d2 ++ ['K', 'B']) ['T', 'B'] = false := by
      rw [hxs]
      exact hasSuffix_pair_false hxne (hmemK 'T' (by decide) (by decide))
    have s2 : hasSuffix (decimalChars d1 d2 ++ ['K', 'B']) ['G', 'B'] = false := by
      rw [hxs]
      exact hasSuffix_pair_false hxne (hmemK 'G' (by decide) (by decide))
    have s3 : hasSuffix (decimalChars d1 d2 ++ ['K', 'B']) ['M', 'B'] = false := by
      rw [hxs]
      exact hasSuffix_pair_false hxne (hmemK 'M' (by decide) (by decide))
    have s4 : hasSuffix (decimalChars d1 d2 ++ ['K', 'B']) ['K', 'B'] = true :=
      hasSuffix_append _ _
    have t4 : trimSuffix (decimalChars d1 d2 ++ ['K', 'B']) ['K', 'B'] = decimalChars d1 d2 :=
      trimSuffix_append _ _
    have hsel : selectSuffix (decimalChars d1 d2 ++ SizeUnit.chars SizeUnit.unitKB)
        = (decimalChars d1 d2, KB) := by
      simp only [SizeUnit.chars]
      unfold selectSuffix
      rw [s1, s2, s3, s4, t4]
      simp
    rw [ParseSize_unfold, hdata, hl, if_neg hlne, hsel]
    exact hres KB
  | unitMB =>
    have hxs : decimalChars d1 d2 ++ ['M', 'B'] = (decimalChars d1 d2 ++ ['M']) ++ ['B'] := by
      simp
    have hxne : decimalChars d1 d2 ++ ['M'] ≠ [] := by simp
    have hmemM : ∀ d : Char, 57 < d.toNat → d ≠ 'M' →
        ∀ x ∈ decimalChars d1 d2 ++ ['M'], x ≠ d := by
      intro d hd hdk x hx
      rcases List.mem_append.mp hx with h | h
      · exact hnum_ne d hd x h
      · simp at h
        subst h
        exact fun e => hdk e.symm
    have s1 : hasSuffix (decimalChars d1 d2 ++ ['M', 'B']) ['T', 'B'] = false := by
      rw [hxs]
      exact hasSuffix_pair_false hxne (hmemM 'T' (by decide) (by decide))
    have s2 : hasSuffix (decimalChars d1 d2 ++ ['M', 'B']) ['G', 'B'] = false := by
      rw [hxs]
      exact hasSuffix_pair_false hxne (hmemM 'G' (by decide) (by decide))
    have s3 : hasSuffix (decimalChars d1 d2 ++ ['M', 'B']) ['M', 'B'] = true :=
      hasSuffix_append _ _
    have t3 : trimSuffix (decimalChars d1 d2 ++ ['M', 'B']) ['M', 'B'] = decimalChars d1 d2 :=
      trimSuffix_append _ _
    have hsel : selectSuffix (decimalChars d1 d2 ++ SizeUnit.chars SizeUnit.unitMB)
        = (decimalChars d1 d2, MB) := by
      simp only [SizeUnit.chars]
      unfold selectSuffix
      rw [s1, s2, s3, t3]
      simp
    rw [ParseSize_unfold, hdata, hl, if_neg hlne, hsel]
    exact hres MB
  | unitGB =>
    have hxs : decimalChars d1 d2 ++ ['G', 'B'] = (decimalChars d1 d2 ++ ['G']) ++ ['B'] := by
      simp
    have hxne : decimalChars d1 d2 ++ ['G'] ≠ [] := by simp
    have hmemG : ∀ d : Char, 57 < d.toNat → d ≠ 'G' →
        ∀ x ∈ decimalChars d1 d2 ++ ['G'], x ≠ d := by
      intro d hd hdk x hx
      rcases List.mem_append.mp hx with h | h
      · exact hnum_ne d hd x h
      · simp at h
        subst h
        exact fun e => hdk e.symm
    have s1 : hasSuffix (decimalChars d1 d2 ++ ['G', 'B']) ['T', 'B'] = false := by
      rw [hxs]
      exact hasSuffix_pair_false hxne (hmemG 'T' (by decide) (by decide))
    have s2 : hasSuffix (decimalChars d1 d2 ++ ['G', 'B']) ['G', 'B'] = true :=
      hasSuffix_append _ _
    have t2 : trimSuffix (decimalChars d1 d2 ++ ['G', 'B']) ['G', 'B'] = decimalChars d1 d2 :=
      trimSuffix_append _ _
    have hsel : selectSuffix (decimalChars d1 d2 ++ SizeUnit.chars SizeUnit.unitGB)
        = (decimalChars d1 d2, GB) := by
      simp only [SizeUnit.chars]
      unfold selectSuffix
      rw [s1, s2, t2]
      simp
    rw [ParseSize_unfold, hdata, hl, if_neg hlne, hsel]
    exact hres GB
  | unitTB =>
    have s1 : hasSuffix (decimalChars d1 d2 ++ ['T', 'B']) ['T', 'B'] = true :=
      hasSuffix_append _ _
    have t1 : trimSuffix (decimalChars d1 d2 ++ ['T', 'B']) ['T', 'B'] = decimalChars d1 d2 :=
      trimSuffix_append _ _
    have hsel : selectSuffix (decimalChars d1 d2 ++ SizeUnit.chars SizeUnit.unitTB)
        = (decimalChars d1 d2, TB) := by
      simp only [SizeUnit.chars]
      unfold selectSuffix
      rw [s1, t1]
      simp
    rw [ParseSize_unfold, hdata, hl, if_neg hlne, hsel]
    exact hres TB

/-! ## The claims -/

/-- Claim C1, counterexample: `parse_size` truncates rather than rounds.
The size string `"1.5"` (decimal 1.5, no unit, multiplier 1) is accepted and
parses to 1, whereas the claimed `round(1.5 * 1)` is 2. -/
theorem c1_round_counterexample :
    ParseSize "1.5" = .ok 1 ∧ sizeRound ['1'] ['5'] SizeUnit.noUnit = 2 ∧
      ParseSize "1.5" ≠ .ok (sizeRound ['1'] ['5'] SizeUnit.noUnit) := by
  decide

/-- Claim C1, amended: for every size string consisting of a decimal number
(digits, optional fraction) followed by an optional case-insensitive unit
suffix, the returned byte count is the literal's nearest-float64 value
(strconv.ParseFloat's IEEE rounding) times the unit multiplier, truncated
toward zero — not rounded to nearest; in particular
`parse_size("100MB") = 104857600`, `parse_size("1.5GB") = 1610612736`, and
`parse_size("2.99999999999999999999") = 3`, the literal itself rounding up
to 3.0 before the truncation. -/
theorem c1_parse_size_truncates :
    (∀ (d1 d2 us : List Char) (u : SizeUnit),
      (∀ c ∈ d1, isDigit c = true) → (∀ c ∈ d2, isDigit c = true) → d1 ≠ [] →
      us.map toUpperChar = u.chars →
      ParseSize ⟨decimalChars d1 d2 ++ us⟩
        = sizeTruncF64 (digitsVal (d1 ++ d2)) d2.length u.mult) ∧
    ParseSize "100MB" = .ok 104857600 ∧ ParseSize "1.5GB" = .ok 1610612736 ∧
    ParseSize "2.99999999999999999999" = .ok 3 := by
  refine ⟨?_, by decide, by decide, by decide⟩
  intro d1 d2 us u h1 h2 hne hu
  have h := ParseSize_eval [] [] d1 d2 us u (by simp) (by simp) h1 h2 hne hu
  simpa using h

/-- Witness for the amended claim C1 at the concrete literal `1.5GB`. -/
theorem c1_parse_size_truncates_witness :
    ParseSize ⟨decimalChars ['1'] ['5'] ++ ['G', 'B']⟩
      = sizeTruncF64 (digitsVal (['1'] ++ ['5'])) (['5'] : List Char).length
          (SizeUnit.mult SizeUnit.unitGB) :=
  c1_parse_size_truncates.1 ['1'] ['5'] ['G', 'B'] SizeUnit.unitGB
    (by decide) (by decide) (by decide) (by decide)

/-- Claim C2, counterexample: `truncate_path` slices raw bytes, not
display-width-correct characters: truncating the valid UTF-8 path
`"日本語abc"` (twelve bytes) to `max_len = 8` cuts the third ideograph
mid-sequence, so the result is not valid UTF-8. -/
theorem c2_utf8_counterexample :
    validUTF8 (strBytes "日本語abc") = true ∧
    validUTF8 (TruncatePath (strBytes "日本語abc") 8) = false := by
  decide

/-- Claim C2, amended: `truncate_path` returns the path unchanged when its
byte length is at most `max_len`; returns `"..."` when it does not fit and
`max_len ≤ 3`; otherwise returns `"..."` plus the last `max_len - 3` bytes
(raw byte offsets, so multi-byte characters may be cut); and
`truncate_path(p, len(p)) = p` for every p. -/
theorem c2_truncate_path_bytes :
    (∀ (p : List Nat) (m : Int), (p.length : Int) ≤ m → TruncatePath p m = p) ∧
    (∀ (p : List Nat) (m : Int), m ≤ 3 → m < (p.length : Int) → TruncatePath p m = dotBytes) ∧
    (∀ (p : List Nat) (k : Nat), 0 < k → (k : Int) + 3 < (p.length : Int) →
      TruncatePath p ((k : Int) + 3) = dotBytes ++ p.drop (p.length - k) ∧
      (p.drop (p.length - k)).length = k) ∧
    (∀ p : List Nat, TruncatePath p (p.length : Int) = p) := by
  refine ⟨?_, ?_, ?_, ?_⟩
  · intro p m h
    unfold TruncatePath
    rw [if_pos h]
  · intro p m h3 hlen
    unfold TruncatePath
    rw [if_neg (by omega), if_pos h3]
  · intro p k hk hlen
    refine ⟨?_, ?_⟩
    · unfold TruncatePath
      rw [if_neg (by omega), if_neg (by omega),
        show ((p.length : Int) - ((k : Int) + 3) + 3).toNat = p.length - k by omega]
    · rw [List.length_drop]
      omega
  · intro p
    unfold TruncatePath
    rw [if_pos (le_refl _)]

/-- Witness for the amended claim C2: the reference example
`truncate_path("/very/long/path/to/file.txt", 15)` keeps the last 12 bytes. -/
theorem c2_truncate_path_bytes_witness :
    TruncatePath (strBytes "/very/long/path/to/file.txt") ((12 : Nat) + 3)
        = dotBytes ++ (strBytes "/very/long/path/to/file.txt").drop
            ((strBytes "/very/long/path/to/file.txt").length - 12) ∧
      ((strBytes "/very/long/path/to/file.txt").drop
          ((strBytes "/very/long/path/to/file.txt").length - 12)).length = 12 :=
  c2_truncate_path_bytes.2.2.1 (strBytes "/very/long/path/to/file.txt") 12
    (by decide) (by decide)

/-- Claim C5, counterexample: the 400-digit size string `1` followed by 399
zeros is well-formed per the size grammar (digits only, no sign), yet its
value overflows float64, `strconv.ParseFloat` reports `ErrRange`, and
`parse_size` fails — refuting "every well-formed non-negative size string
succeeds". -/
theorem c5_overflow_counterexample :
    (∀ c ∈ ('1' :: List.replicate 399 '0'), isDigit c = true) ∧
    ParseSize ⟨'1' :: List.replicate 399 '0'⟩ = .error .invalidNumber :=
  ⟨by decide, by decide⟩

/-- Claim C5, amended: `parse_size` fails with the `InvalidFormat` taxonomy
on the malformed inputs the claim lists — `""`, `"abc"`, `"MB"`, `"-100MB"`
(empty input, unparsable number, suffix without number, negative number) —
and additionally on well-formed size strings whose numeric value overflows
float64 (strconv's `ErrRange`); every well-formed non-negative size string
whose value rounds to a finite float64 succeeds; and every outcome is
success or one of those three error cases — nothing else. -/
theorem c5_parse_size_error_handling :
    ParseSize "" = .error .empty ∧
    ParseSize "abc" = .error .invalidNumber ∧
    ParseSize "MB" = .error .invalidNumber ∧
    ParseSize "-100MB" = .error .negative ∧
    (∀ (ws1 ws2 d1 d2 us : List Char) (u : SizeUnit) (qt : Nat × Int),
      (∀ c ∈ ws1, isSpace c = true) → (∀ c ∈ ws2, isSpace c = true) →
      (∀ c ∈ d1, isDigit c = true) → (∀ c ∈ d2, isDigit c = true) → d1 ≠ [] →
      us.map toUpperChar = u.chars →
      float64OfDecimal (digitsVal (d1 ++ d2)) (-(d2.length : Int)) = some qt →
      ParseSize ⟨ws1 ++ (decimalChars d1 d2 ++ us) ++ ws2⟩
        = .ok (truncFloatMul qt.1 qt.2 u.mult)) ∧
    (∀ s : String, (∃ n, ParseSize s = .ok n) ∨ ParseSize s = .error .empty ∨
      ParseSize s = .error .invalidNumber ∨ ParseSize s = .error .negative) := by
  refine ⟨by decide, by decide, by decide, by decide, ?_, ?_⟩
  · intro ws1 ws2 d1 d2 us u qt hw1 hw2 h1 h2 hne hu hf
    rw [ParseSize_eval ws1 ws2 d1 d2 us u hw1 hw2 h1 h2 hne hu]
    simp [sizeTruncF64, hf]
  · intro s
    cases h : ParseSize s with
    | ok n => exact Or.inl ⟨n, rfl⟩
    | error e =>
      cases e with
      | empty => exact Or.inr (Or.inl rfl)
      | invalidNumber => exact Or.inr (Or.inr (Or.inl rfl))
      | negative => exact Or.inr (Or.inr (Or.inr rfl))

/-- Witness for the amended claim C5 at the concrete white-space-padded
string `" 100MB "` (100 is the float64 `25 * 2 ^ 48 * 2 ^ -46`). -/
theorem c5_parse_size_error_handling_witness :
    ParseSize ⟨[' '] ++ (decimalChars ['1', '0', '0'] [] ++ ['M', 'B']) ++ [' ']⟩
      = .ok (truncFloatMul (25 * 2 ^ 48) (-46) (SizeUnit.mult SizeUnit.unitMB)) :=
  c5_parse_size_error_handling.2.2.2.2.1 [' '] [' '] ['1', '0', '0'] [] ['M', 'B']
    SizeUnit.unitMB (25 * 2 ^ 48, -46) (by decide) (by decide) (by decide) (by decide)
    (by decide) (by decide) (by decide)

/-- Claim C3: `human_size` selects the largest 1024-based unit whose
threshold the value reaches: bytes below 1024 render as an integer count
with no decimal, KB/MB/GB values render with exactly one decimal place, TB
values with two, and the 1024 boundary belongs to the next unit up:
`human_size(0) = "0 B"`, `human_size(1023) = "1023 B"`,
`human_size(1024) = "1.0 KB"`, `human_size(1024*1024) = "1.0 MB"`. -/
theorem c3_human_size_units :
    HumanSize 0 = "0 B" ∧ HumanSize 1023 = "1023 B" ∧ HumanSize 1024 = "1.0 KB" ∧
    HumanSize (1024 * 1024) = "1.0 MB" ∧
    (∀ b : Nat, b < 2 ^ 64 →
      (b < 1024 → HumanSize b = toString b ++ " B") ∧
      (1024 ≤ b → b < 1024 ^ 2 → ∃ n k : Nat, k < 10 ∧
        HumanSize b = toString n ++ "." ++ toString k ++ " KB") ∧
      (1024 ^ 2 ≤ b → b < 1024 ^ 3 → ∃ n k : Nat, k < 10 ∧
        HumanSize b = toString n ++ "." ++ toString k ++ " MB") ∧
      (1024 ^ 3 ≤ b → b < 1024 ^ 4 → ∃ n k : Nat, k < 10 ∧
        HumanSize b = toString n ++ "." ++ toString k ++ " GB") ∧
      (1024 ^ 4 ≤ b → ∃ n k : Nat, k < 100 ∧
        HumanSize b = toString n ++ "." ++ pad2 k ++ " TB")) := by
  refine ⟨by decide, by decide, by decide, by decide, ?_⟩
  intro b _
  have hKB : KB = 1024 := rfl
  have hMB : MB = 1048576 := rfl
  have hGB : GB = 1073741824 := rfl
  have hTB : TB = 1099511627776 := rfl
  refine ⟨?_, ?_, ?_, ?_, ?_⟩
  · intro h
    unfold HumanSize
    rw [if_neg (by omega), if_neg (by omega), if_neg (by omega), if_neg (by omega)]
  · intro h1 h2
    unfold HumanSize
    rw [if_neg (by omega), if_neg (by omega), if_neg (by omega), if_pos (by omega)]
    unfold sprintf1f
    exact ⟨_, _, Nat.mod_lt _ (by norm_num), rfl⟩
  · intro h1 h2
    unfold HumanSize
    rw [if_neg (by omega), if_neg (by omega), if_pos (by omega)]
    unfold sprintf1f
    exact ⟨_, _, Nat.mod_lt _ (by norm_num), rfl⟩
  · intro h1 h2
    unfold HumanSize
    rw [if_neg (by omega), if_pos (by omega)]
    unfold sprintf1f
    exact ⟨_, _, Nat.mod_lt _ (by norm_num), rfl⟩
  · intro h1
    unfold HumanSize
    rw [if_pos (by omega)]
    unfold sprintf2f
    exact ⟨_, _, Nat.mod_lt _ (by norm_num), rfl⟩

/-- Witness for claim C3 at the KB-range value 1536 (= 1.5 KB). -/
theorem c3_human_size_units_witness :
    ∃ n k : Nat, k < 10 ∧ HumanSize 1536 = toString n ++ "." ++ toString k ++ " KB" :=
  ((c3_human_size_units.2.2.2.2 1536 (by decide)).2.1 (by decide) (by decide))

/-- Claim C4: for nonnegative durations, `human_duration` renders
milliseconds with a trailing "ms" when the whole-second count is zero,
"<secs>.<tenths>s" with one truncated decimal digit under 60 seconds,
"<mins>m <secs>s" by truncated division and remainder under 3600 seconds,
and "<hours>h <mins>m" otherwise — the whole-second count being the code's
`int64(d.Seconds())`, i.e. `goSeconds`, float64 roundings included; at the
boundaries, 999 ms gives "999ms", 1000 ms gives "1.0s", 60 s gives "1m 0s",
3599 s gives "59m 59s" and 3600 s gives "1h 0m".  The last conjunct
exercises the float64 path: 16777259 s + 999999999 ns rounds up to
16777260 whole seconds and renders "4660h 21m". -/
theorem c4_human_duration_bands :
    (∀ d : Int, 0 ≤ d →
      (goSeconds d = 0 → HumanDuration d = toString (goDiv d 1000000) ++ "ms") ∧
      (goSeconds d ≠ 0 → goSeconds d < 60 →
        HumanDuration d = toString (goSeconds d) ++ "." ++
          toString (goMod (goDiv d 100000000) 10) ++ "s") ∧
      (60 ≤ goSeconds d → goSeconds d < 3600 →
        HumanDuration d = toString (goDiv (goSeconds d) 60) ++ "m " ++
          toString (goMod (goSeconds d) 60) ++ "s") ∧
      (3600 ≤ goSeconds d →
        HumanDuration d = toString (goDiv (goSeconds d) 3600) ++ "h " ++
          toString (goDiv (goMod (goSeconds d) 3600) 60) ++ "m")) ∧
    HumanDuration (999 * 1000000) = "999ms" ∧
    HumanDuration 1000000000 = "1.0s" ∧
    HumanDuration (60 * 1000000000) = "1m 0s" ∧
    HumanDuration (3599 * 1000000000) = "59m 59s" ∧
    HumanDuration (3600 * 1000000000) = "1h 0m" ∧
    HumanDuration 16777259999999999 = "4660h 21m" := by
  refine ⟨?_, by decide, by decide, by decide, by decide, by decide, by decide⟩
  intro d hd
  refine ⟨?_, ?_, ?_, ?_⟩
  · intro h0
    unfold HumanDuration
    rw [if_pos h0]
  · intro h0 h60
    obtain ⟨n, rfl⟩ := Int.eq_ofNat_of_zero_le hd
    unfold HumanDuration
    rw [if_neg h0, if_pos h60]
    have htenths : goDiv (goMod (goDiv (n : Int) 1000000) 1000) 100
        = goMod (goDiv (n : Int) 100000000) 10 := by
      show ((n / 1000000 % 1000 / 100 : Nat) : Int) = ((n / 100000000 % 10 : Nat) : Int)
      congr 1
      omega
    rw [htenths]
  · intro h60 h3600
    unfold HumanDuration
    rw [if_neg (by omega), if_neg (by omega), if_pos h3600]
  · intro h3600
    unfold HumanDuration
    rw [if_neg (by omega), if_neg (by omega), if_neg (by omega)]

/-- Witness for claim C4 at the concrete duration 5.5 s (the seconds band
with a truncated tenths digit). -/
theorem c4_human_duration_bands_witness :
    HumanDuration 5500000000 = toString (goSeconds 5500000000) ++ "." ++
      toString (goMod (goDiv 5500000000 100000000) 10) ++ "s" :=
  ((c4_human_duration_bands.1 5500000000 (by decide)).2.1 (by decide) (by decide))

/-- Claim C10: `human_duration` is total over negative durations, and every
strictly negative duration with a nonzero whole-second count (the code's
`int64(d.Seconds())`) takes the under-60-seconds branch, because a negative
second count compares below 60; -90 s renders as "-90.0s" and -5.5 s
renders as "-5.-5s".  The last conjunct exercises the float64 path:
-(16777259 s + 999999999 ns) rounds to -16777260 whole seconds and renders
"-16777260.-9s". -/
theorem c10_human_duration_negative :
    (∀ d : Int, d < 0 → goSeconds d ≠ 0 →
      HumanDuration d = toString (goSeconds d) ++ "." ++
        toString (goDiv (goMod (goDiv d 1000000) 1000) 100) ++ "s") ∧
    HumanDuration (-90000000000) = "-90.0s" ∧
    HumanDuration (-5500000000) = "-5.-5s" ∧
    HumanDuration (-16777259999999999) = "-16777260.-9s" := by
  refine ⟨?_, by decide, by decide, by decide⟩
  intro d hneg h0
  have hle : goSeconds d ≤ 0 := by
    unfold goSeconds
    rw [if_pos hneg]
    have := Int.natCast_nonneg
      (goSecondsNat (goDiv d 1000000000).natAbs (goMod d 1000000000).natAbs)
    omega
  unfold HumanDuration
  rw [if_neg h0, if_pos (by omega)]

/-- Witness for claim C10 at the concrete duration -90 s. -/
theorem c10_human_duration_negative_witness :
    HumanDuration (-90000000000) = toString (goSeconds (-90000000000)) ++ "." ++
      toString (goDiv (goMod (goDiv (-90000000000) 1000000) 1000) 100) ++ "s" :=
  c10_human_duration_negative.1 (-90000000000) (by decide) (by decide)

/-- Claim C6: the colour flag computed at initialisation follows the exact
precedence NO_COLOR (non-empty forces off), then CLICOLOR_FORCE (truthy
forces on, even off a terminal), then CLICOLOR ("0" disables, any other set
value enables), else TTY detection. -/
theorem c6_color_init_precedence :
    (∀ (v : String) (cf cc : Option String) (tty : Bool), v ≠ "" →
      colorInitEnabled (some v) cf cc tty = false) ∧
    (∀ (nc : Option String) (cf : String) (cc : Option String) (tty : Bool),
      (nc = none ∨ nc = some "") → envTruthy cf = true →
      colorInitEnabled nc (some cf) cc tty = true) ∧
    (∀ (nc cfo : Option String) (tty : Bool),
      (nc = none ∨ nc = some "") →
      (cfo = none ∨ ∃ v, cfo = some v ∧ envTruthy v = false) →
      colorInitEnabled nc cfo (some "0") tty = false) ∧
    (∀ (nc cfo : Option String) (v : String) (tty : Bool),
      (nc = none ∨ nc = some "") →
      (cfo = none ∨ ∃ w, cfo = some w ∧ envTruthy w = false) →
      v ≠ "0" → colorInitEnabled nc cfo (some v) tty = true) ∧
    (∀ (nc cfo : Option String) (tty : Bool),
      (nc = none ∨ nc = some "") →
      (cfo = none ∨ ∃ w, cfo = some w ∧ envTruthy w = false) →
      colorInitEnabled nc cfo none tty = tty) := by
  refine ⟨?_, ?_, ?_, ?_, ?_⟩
  · intro v cf cc tty hv
    simp [colorInitEnabled, hv]
  · intro nc cf cc tty hnc hcf
    rcases hnc with rfl | rfl <;> simp [colorInitEnabled, hcf]
  · intro nc cfo tty hnc hcf
    rcases hnc with rfl | rfl <;>
      (rcases hcf with rfl | ⟨w, rfl, hw⟩ <;> simp [colorInitEnabled, *])
  · intro nc cfo v tty hnc hcf hv
    rcases hnc with rfl | rfl <;>
      (rcases hcf with rfl | ⟨w, rfl, hw⟩ <;> simp [colorInitEnabled, *])
  · intro nc cfo tty hnc hcf
    rcases hnc with rfl | rfl <;>
      (rcases hcf with rfl | ⟨w, rfl, hw⟩ <;> simp [colorInitEnabled, *])

/-- Witness for claim C6: NO_COLOR beats a truthy CLICOLOR_FORCE and a TTY. -/
theorem c6_color_init_precedence_witness :
    colorInitEnabled (some "1") (some "1") (some "1") true = false ∧
    colorInitEnabled none (some "1") (some "0") false = true ∧
    colorInitEnabled none none (some "0") true = false ∧
    colorInitEnabled none none (some "auto") false = true ∧
    colorInitEnabled none none none true = true :=
  ⟨c6_color_init_precedence.1 "1" (some "1") (some "1") true (by decide),
    c6_color_init_precedence.2.1 none "1" (some "0") false (Or.inl rfl) (by decide),
    c6_color_init_precedence.2.2.1 none none true (Or.inl rfl) (Or.inl rfl),
    c6_color_init_precedence.2.2.2.1 none none "auto" false (Or.inl rfl) (Or.inl rfl)
      (by decide),
    c6_color_init_precedence.2.2.2.2 none none true (Or.inl rfl) (Or.inl rfl)⟩

/-- Claim C7 is violated by go/messages.go: the icon strings are rendered by
`color.Sprint` once, in the package `var` block, so they capture the colour
state current at package initialisation.  With colour enabled at init, an
`Info` line written after `set_color(false)` still carries the initial
styling instead of the required current-state rendering (which `Dim`, by
contrast, does consult per call). -/
theorem c7_info_icon_cached :
    (Info (initIcons true) "x").2 = infoLineDynamic true "x" ∧
    (Info (initIcons true) "x").2 ≠ infoLineDynamic false "x" ∧
    infoLineDynamic false "x" = "ℹ x\n" ∧
    (Dim false "x").2 = "  x\n" := by
  refine ⟨rfl, by decide, by decide, by decide⟩

/-- Claim C9: informational, success, warning and dim messages, the
spinner's Success/Warn final lines and its Clear erase, the bar's Success
final line, spinner animation frames and bar redraws are all written to
standard output, while every Error operation — message, spinner final line,
bar final line — is written to standard error. -/
theorem c9_output_streams :
    (∀ (icons : MsgIcons) (msg : String) (e : Bool),
      (Info icons msg).1 = .out ∧ (Success icons msg).1 = .out ∧
      (Warn icons msg).1 = .out ∧ (Dim e msg).1 = .out ∧
      (ErrorMsg icons msg).1 = .err) ∧
    (∀ (e : Bool) (msg : String),
      (SpinnerHandleSuccess e msg).1 = .out ∧ (SpinnerHandleWarn e msg).1 = .out ∧
      (SpinnerHandleError e msg).1 = .err ∧
      (BarHandleSuccess e msg).1 = .out ∧ (BarHandleError e msg).1 = .err) ∧
    SpinnerHandleClear.1 = .out ∧ spinnerFrameStream = .out ∧ barWriterStream = .out :=
  ⟨fun _ _ _ => ⟨rfl, rfl, rfl, rfl, rfl⟩,
    fun _ _ => ⟨rfl, rfl, rfl, rfl, rfl⟩, rfl, rfl, rfl⟩

/-- Witness for claim C9 at concrete messages: `Info` goes to stdout and the
spinner's `Error` final line to stderr. -/
theorem c9_output_streams_witness :
    (Info (initIcons true) "hello").1 = StdStream.out ∧
    (SpinnerHandleError true "boom").1 = StdStream.err :=
  ⟨(c9_output_streams.1 (initIcons true) "hello" true).1,
    (c9_output_streams.2.1 true "boom").2.2.1⟩

end Pintui
